import Mathlib

/-!
Shallow embedding of src/criteria_1_3_pronoun.py (the term-compliance
evaluator).  Python strings are Lean `String`s; the Python string
primitives used by the source (str.startswith, slicing, str.strip,
substring membership) are embedded as character-list functions with the
same semantics.  The external segmenter (pythainlp word_tokenize /
pos_tag) is an opaque injected capability, modelled by the `Tokenizer`
structure whose `tokenize` may fail (a Python exception becomes
`Except.error`).  Python sets are modelled as duplicate-free lists whose
membership is the only observation the source makes of them.
-/

namespace NHSO

/-- Python str.startswith: the first characters of s equal p. -/
def pyStartsWith (s p : String) : Bool :=
  s.data.take p.data.length == p.data

/-- Python s[n:] — drop the first n characters. -/
def pyDrop (s : String) (n : Nat) : String :=
  ⟨s.data.drop n⟩

/-- Python str.strip: remove leading and trailing whitespace. -/
def pyStrip (s : String) : String :=
  ⟨((s.data.dropWhile Char.isWhitespace).reverse.dropWhile Char.isWhitespace).reverse⟩

/-- Bool test for a contiguous sub-list: pat occurs at some position. -/
def sublistScan (pat : List Char) : List Char → Bool
  | [] => pat.isEmpty
  | c :: tail => pat.isPrefixOf (c :: tail) || sublistScan pat tail

/-- Python substring membership: pat in s. -/
def strContains (s pat : String) : Bool :=
  sublistScan pat.data s.data

/-- FAMILY_TERMS from the source. -/
def FAMILY_TERMS : List String := ["ลุง", "ป้า", "น้า", "อา"]

/-- PHI_TERM from the source — never allowed. -/
def PHI_TERM : String := "พี่"

/-- MONK_TERMS from the source. -/
def MONK_TERMS : List String := ["ท่าน", "พระคุณเจ้า"]

/-- MONK_SELF_TERMS from the source. -/
def MONK_SELF_TERMS : List String := ["หลวงพี่", "หลวงพ่อ", "อาตมา"]

/-- ALL_TERMS from the source. -/
def ALL_TERMS : List String := FAMILY_TERMS ++ MONK_TERMS ++ MONK_SELF_TERMS

/-- The source's list of honorific particles (named PREFIXES there). -/
def HONORIFICS : List String := ["คุณ"]

/-- The injected segmentation capability (pythainlp in the source):
tokenize may raise (modelled as Except.error); pos_tag maps tokens to
(token, tag) pairs. -/
structure Tokenizer where
  tokenize : String → Except String (List String)
  posTag : List String → List (String × String)

/-- is_self_reference from the source: monk self-terms match as bare
substrings; every other term must be an exact token and is cancelled by
the literal negation pattern. -/
def is_self_reference (tok : Tokenizer) (term utterance : String) : Except String Bool :=
  if MONK_SELF_TERMS.contains term && strContains utterance term then
    pure true
  else do
    let tokens ← tok.tokenize utterance
    if !(tokens.contains term) then
      pure false
    else if strContains utterance ("ไม่ใช่" ++ term) then
      pure false
    else
      pure true

/-- find_terms_in_text from the source: a term is found if it is a token
or is tagged NCMN; an honorific-led concatenation is found if it is a
token or appears among the tagged words (any tag). -/
def find_terms_in_text (tok : Tokenizer) (text : String) : Except String (List String) := do
  let tokens ← tok.tokenize text
  let pos_tags := tok.posTag tokens
  let direct := (ALL_TERMS ++ [PHI_TERM]).filter fun term =>
    tokens.contains term || pos_tags.any fun wt => wt.1 == term && wt.2 == "NCMN"
  let led := HONORIFICS.flatMap fun p =>
    (ALL_TERMS ++ [PHI_TERM]).filterMap fun term =>
      let pt := p ++ term
      if tokens.contains pt || pos_tags.any (fun wt => wt.1 == pt) then some pt else none
  pure (direct ++ led)

/-- Status of an evaluation run, mirroring the PASS / FAIL strings of
the source's results dict. -/
inductive Status where
  | PASS
  | FAIL
deriving DecidableEq

/-- One violation record: the 1-based line number, which check fired, and
the offending terms listed in the message. -/
inductive VKind where
  | forbidden
  | unapproved
deriving DecidableEq

/-- A violation appended to results['violations']. -/
structure Violation where
  line : Nat
  kind : VKind
  terms : List String
deriving DecidableEq

/-- The mutable evaluation state of the source's loop: results['status'],
the self_ref_terms set, and results['violations']. -/
structure EvalState where
  status : Status
  self_ref_terms : List String
  violations : List Violation
deriving DecidableEq

/-- The allowance contributed by one disclosed term (source lines
98-108): the term itself, its honorific-led forms, and — for monk
self-terms — every monk term with its honorific-led forms. -/
def termAllowance (term : String) : List String :=
  term :: HONORIFICS.map (fun p => p ++ term) ++
    (if MONK_SELF_TERMS.contains term then
      MONK_TERMS.flatMap fun m => m :: HONORIFICS.map (fun p => p ++ m)
    else [])

/-- The allowed set computed per agent line (source lines 90-108):
ท่าน and its honorific-led forms always, plus the allowance of every
disclosed term. -/
def allowedTerms (disclosed : List String) : List String :=
  ("ท่าน" :: HONORIFICS.map (fun p => p ++ "ท่าน")) ++ disclosed.flatMap termAllowance

/-- The caller-line loop (source lines 82-84): try every term of
ALL_TERMS in order, adding each detected self-reference to the set. -/
def addSelfRefs (tok : Tokenizer) (text : String) : List String → List String → Except String (List String)
  | acc, [] => pure acc
  | acc, t :: ts => do
    let b ← is_self_reference tok t text
    addSelfRefs tok text (if b && !(acc.contains t) then acc ++ [t] else acc) ts

/-- The filter selecting the forbidden occurrences on an agent line
(source lines 115-116): พี่ itself or an honorific-led form whose first
three characters are คุณ and whose remainder is พี่. -/
def phiFilter (used : List String) : List String :=
  used.filter fun t => t == PHI_TERM || (pyStartsWith t "คุณ" && pyDrop t 3 == PHI_TERM)

/-- The filter selecting the occurrences that are neither allowed nor
forbidden (source lines 123-124). -/
def disFilter (allowed used : List String) : List String :=
  used.filter fun t => !(allowed.contains t) && !((phiFilter used).contains t)

/-- The forbidden-term check of an agent line (source lines 118-120). -/
def phiStep (used : List String) (st : EvalState) (i : Nat) : EvalState :=
  if (phiFilter used).isEmpty then st else
    ⟨Status.FAIL, st.self_ref_terms, st.violations ++ [⟨i + 1, VKind.forbidden, phiFilter used⟩]⟩

/-- The unapproved-term check of an agent line (source lines 126-128). -/
def disStep (allowed used : List String) (st : EvalState) (i : Nat) : EvalState :=
  if (disFilter allowed used).isEmpty then st else
    ⟨Status.FAIL, st.self_ref_terms, st.violations ++ [⟨i + 1, VKind.unapproved, disFilter allowed used⟩]⟩

/-- The checks performed on an agent line occurrence set (source lines
113-128): nothing on an empty set, otherwise the forbidden-term check
followed by the unapproved-term check against the allowed set. -/
def agentCheck (allowed used : List String) (st : EvalState) (i : Nat) : EvalState :=
  if used.isEmpty then st
  else disStep allowed used (phiStep used st i) i

/-- Processing of one stripped non-blank line at 0-based index i
(source lines 77-128). -/
def processLine (tok : Tokenizer) (st : EvalState) (i : Nat) (line : String) : Except String EvalState :=
  if pyStartsWith line "Speaker 2:" then do
    let text := pyStrip (pyDrop line 10)
    let d ← addSelfRefs tok text st.self_ref_terms ALL_TERMS
    pure { st with self_ref_terms := d }
  else if pyStartsWith line "Speaker 1:" then do
    let text := pyStrip (pyDrop line 10)
    let used ← find_terms_in_text tok text
    pure (agentCheck (allowedTerms st.self_ref_terms) used st i)
  else
    pure st

/-- The enumerate loop of evaluate_conversation: fold processLine over
the numbered lines. -/
def runLines (tok : Tokenizer) : EvalState → Nat → List String → Except String EvalState
  | st, _, [] => pure st
  | st, i, l :: ls => do
    let st' ← processLine tok st i l
    runLines tok st' (i + 1) ls

/-- Line 65 of the source: strip every line and keep only the non-blank
ones, in order. -/
def parseLines (raw : List String) : List String :=
  raw.filterMap fun l => if pyStrip l == "" then none else some (pyStrip l)

/-- The initial state: status PASS, nothing disclosed, no violations. -/
def initState : EvalState := ⟨Status.PASS, [], []⟩

/-- evaluate_conversation from the source, with the file contents given
as the list of raw lines: returns the integer score (1 = PASS, 0 = FAIL)
together with the final state. -/
def evaluate_conversation (tok : Tokenizer) (raw : List String) : Except String (Nat × EvalState) := do
  let fin ← runLines tok initState 0 (parseLines raw)
  pure (if fin.status = Status.PASS then 1 else 0, fin)

/-- The state after processing the first k parsed lines. -/
def evalUpTo (tok : Tokenizer) (raw : List String) (k : Nat) : Except String EvalState :=
  runLines tok initState 0 ((parseLines raw).take k)

/-- A concrete segmenter table used to instantiate theorems on concrete
transcripts: unknown text segments to a single token. -/
def tokW : Tokenizer :=
  { tokenize := fun s =>
      if s = "ลุงอยากถาม" then .ok ["ลุง", "อยาก", "ถาม"]
      else if s = "พี่ครับ" then .ok ["พี่", "ครับ"]
      else if s = "อาตมาเจริญพร" then .ok ["อาตมา", "เจริญพร"]
      else if s = "ท่านรอ" then .ok ["ท่าน", "รอ"]
      else if s = "ป้าครับ" then .ok ["ป้า", "ครับ"]
      else .ok [s],
    posTag := fun _ => [] }

/-- A segmenter that always fails, modelling a raised segmentation
exception. -/
def tokFail : Tokenizer :=
  { tokenize := fun _ => .error "SegmentationError",
    posTag := fun _ => [] }

/-- The concrete result of evaluating the one-line forbidden-term
transcript with tokW, used to instantiate theorems. -/
def resW : Nat × EvalState :=
  (0, ⟨Status.FAIL, [], [⟨1, VKind.forbidden, ["พี่"]⟩]⟩)

theorem exceptBind_ok {ε α β : Type} {x : Except ε α} {f : α → Except ε β} {b : β} :
    x.bind f = Except.ok b ↔ ∃ a, x = Except.ok a ∧ f a = Except.ok b := by
  cases x <;> simp [Except.bind]

theorem exceptBind_def {ε α β : Type} (x : Except ε α) (f : α → Except ε β) :
    x >>= f = x.bind f := rfl

theorem exceptPure_def {ε α : Type} (a : α) : (pure a : Except ε α) = Except.ok a := rfl

theorem runLines_nil (tok : Tokenizer) (st : EvalState) (i : Nat) :
    runLines tok st i [] = Except.ok st := rfl

theorem runLines_cons (tok : Tokenizer) (st : EvalState) (i : Nat) (l : String) (ls : List String) :
    runLines tok st i (l :: ls) = (processLine tok st i l).bind fun st' => runLines tok st' (i + 1) ls := rfl

theorem runLines_append (tok : Tokenizer) (xs : List String) :
    ∀ (st : EvalState) (i : Nat) (ys : List String),
      runLines tok st i (xs ++ ys) =
        (runLines tok st i xs).bind fun st' => runLines tok st' (i + xs.length) ys := by
  induction xs with
  | nil => intro st i ys; simp [runLines_nil, Except.bind]
  | cons l ls ih =>
    intro st i ys
    rw [List.cons_append, runLines_cons, runLines_cons]
    cases processLine tok st i l with
    | error e => simp [Except.bind]
    | ok st' =>
      simp only [Except.bind, ih]
      have : i + 1 + ls.length = i + (ls.length + 1) := by omega
      rw [this]
      rfl

theorem processLine_caller_eq (tok : Tokenizer) (st : EvalState) (i : Nat) (line : String)
    (h2 : pyStartsWith line "Speaker 2:" = true) :
    processLine tok st i line =
      (addSelfRefs tok (pyStrip (pyDrop line 10)) st.self_ref_terms ALL_TERMS).bind
        fun d => Except.ok { st with self_ref_terms := d } := by
  simp only [processLine, h2, if_true]
  rfl

theorem processLine_other_eq (tok : Tokenizer) (st : EvalState) (i : Nat) (line : String)
    (h2 : pyStartsWith line "Speaker 2:" = false)
    (h1 : pyStartsWith line "Speaker 1:" = false) :
    processLine tok st i line = Except.ok st := by
  simp [processLine, h1, h2, exceptPure_def]

theorem processLine_agent_eq (tok : Tokenizer) (st : EvalState) (i : Nat) (line : String)
    (h2 : pyStartsWith line "Speaker 2:" = false)
    (h1 : pyStartsWith line "Speaker 1:" = true) :
    processLine tok st i line =
      (find_terms_in_text tok (pyStrip (pyDrop line 10))).bind
        fun used => Except.ok (agentCheck (allowedTerms st.self_ref_terms) used st i) := by
  simp only [processLine, h2, h1, Bool.false_eq_true, if_false, if_true]
  rfl

theorem agentCheck_spec (allowed used : List String) (st : EvalState) (i : Nat) :
    (agentCheck allowed used st i).self_ref_terms = st.self_ref_terms ∧
    (∃ tail, (agentCheck allowed used st i).violations = st.violations ++ tail ∧
      ∀ v ∈ tail, v.line = i + 1) ∧
    (st.status = Status.FAIL → (agentCheck allowed used st i).status = Status.FAIL) ∧
    ((st.status = Status.FAIL ↔ st.violations ≠ []) →
      ((agentCheck allowed used st i).status = Status.FAIL ↔
        (agentCheck allowed used st i).violations ≠ [])) := by
  unfold agentCheck disStep phiStep
  by_cases hu : used.isEmpty = true
  · rw [if_pos hu]
    exact ⟨rfl, ⟨[], (List.append_nil _).symm, by simp⟩, fun h => h, fun h => h⟩
  · rw [if_neg hu]
    by_cases hp : (phiFilter used).isEmpty = true <;>
      by_cases hd : (disFilter allowed used).isEmpty = true
    · rw [if_pos hp, if_pos hd]
      exact ⟨rfl, ⟨[], (List.append_nil _).symm, by simp⟩, fun h => h, fun h => h⟩
    · rw [if_pos hp, if_neg hd]
      exact ⟨rfl, ⟨[⟨i + 1, VKind.unapproved, _⟩], rfl, by simp⟩, fun _ => rfl, by simp⟩
    · rw [if_neg hp, if_pos hd]
      exact ⟨rfl, ⟨[⟨i + 1, VKind.forbidden, _⟩], rfl, by simp⟩, fun _ => rfl, by simp⟩
    · rw [if_neg hp, if_neg hd]
      refine ⟨rfl, ⟨[⟨i + 1, VKind.forbidden, phiFilter used⟩,
        ⟨i + 1, VKind.unapproved, disFilter allowed used⟩], ?_, by simp⟩,
        fun _ => rfl, by simp⟩
      simp [List.append_assoc]

theorem addSelfRefs_sub (tok : Tokenizer) (text : String) :
    ∀ (ts acc out : List String), addSelfRefs tok text acc ts = Except.ok out →
      acc ⊆ out ∧ ∀ x ∈ out, x ∈ acc ∨ x ∈ ts := by
  intro ts
  induction ts with
  | nil =>
    intro acc out h
    simp only [addSelfRefs, exceptPure_def, Except.ok.injEq] at h
    subst h
    exact ⟨List.Subset.refl _, fun x hx => Or.inl hx⟩
  | cons t ts ih =>
    intro acc out h
    simp only [addSelfRefs, exceptBind_def] at h
    rcases exceptBind_ok.mp h with ⟨b, _, h2⟩
    rcases ih _ _ h2 with ⟨hsub, hmem⟩
    by_cases hb : (b && !(acc.contains t)) = true
    · rw [if_pos hb] at hsub hmem
      refine ⟨fun x hx => hsub (List.mem_append_left _ hx), fun x hx => ?_⟩
      rcases hmem x hx with hx' | hx'
      · rcases List.mem_append.mp hx' with hx'' | hx''
        · exact Or.inl hx''
        · simp only [List.mem_singleton] at hx''
          exact Or.inr (hx'' ▸ List.mem_cons_self _ _)
      · exact Or.inr (List.mem_cons_of_mem _ hx')
    · rw [if_neg hb] at hsub hmem
      refine ⟨hsub, fun x hx => ?_⟩
      rcases hmem x hx with hx' | hx'
      · exact Or.inl hx'
      · exact Or.inr (List.mem_cons_of_mem _ hx')

theorem processLine_spec (tok : Tokenizer) (st : EvalState) (i : Nat) (line : String)
    (st' : EvalState) (h : processLine tok st i line = Except.ok st') :
    (st.self_ref_terms ⊆ st'.self_ref_terms) ∧
    (∀ x ∈ st'.self_ref_terms, x ∈ st.self_ref_terms ∨ x ∈ ALL_TERMS) ∧
    (∃ tail, st'.violations = st.violations ++ tail ∧ ∀ v ∈ tail, v.line = i + 1) ∧
    (st.status = Status.FAIL → st'.status = Status.FAIL) ∧
    ((st.status = Status.FAIL ↔ st.violations ≠ []) →
      (st'.status = Status.FAIL ↔ st'.violations ≠ [])) := by
  by_cases h2 : pyStartsWith line "Speaker 2:" = true
  · rw [processLine_caller_eq tok st i line h2] at h
    rcases exceptBind_ok.mp h with ⟨d, hd, hok⟩
    simp only [Except.ok.injEq] at hok
    subst hok
    rcases addSelfRefs_sub tok _ _ _ _ hd with ⟨hsub, hmem⟩
    exact ⟨hsub, hmem, ⟨[], by simp, by simp⟩, fun hs => hs, fun hi => hi⟩
  · rw [Bool.not_eq_true] at h2
    by_cases h1 : pyStartsWith line "Speaker 1:" = true
    · rw [processLine_agent_eq tok st i line h2 h1] at h
      rcases exceptBind_ok.mp h with ⟨used, _, hok⟩
      simp only [Except.ok.injEq] at hok
      subst hok
      obtain ⟨e1, e2, e3, e4⟩ := agentCheck_spec (allowedTerms st.self_ref_terms) used st i
      refine ⟨?_, ?_, e2, e3, e4⟩
      · rw [e1]
        exact List.Subset.refl _
      · intro x hx
        rw [e1] at hx
        exact Or.inl hx
    · rw [Bool.not_eq_true] at h1
      rw [processLine_other_eq tok st i line h2 h1, Except.ok.injEq] at h
      subst h
      exact ⟨List.Subset.refl _, fun x hx => Or.inl hx, ⟨[], by simp, by simp⟩,
        fun hs => hs, fun hi => hi⟩

theorem runLines_spec (tok : Tokenizer) :
    ∀ (ls : List String) (st : EvalState) (i : Nat) (st' : EvalState),
      runLines tok st i ls = Except.ok st' →
      (st.self_ref_terms ⊆ st'.self_ref_terms) ∧
      (∀ x ∈ st'.self_ref_terms, x ∈ st.self_ref_terms ∨ x ∈ ALL_TERMS) ∧
      (∃ tail, st'.violations = st.violations ++ tail ∧
        ∀ v ∈ tail, i + 1 ≤ v.line ∧ v.line ≤ i + ls.length) ∧
      (st.status = Status.FAIL → st'.status = Status.FAIL) ∧
      ((st.status = Status.FAIL ↔ st.violations ≠ []) →
        (st'.status = Status.FAIL ↔ st'.violations ≠ [])) := by
  intro ls
  induction ls with
  | nil =>
    intro st i st' h
    rw [runLines_nil, Except.ok.injEq] at h
    subst h
    exact ⟨List.Subset.refl _, fun x hx => Or.inl hx, ⟨[], by simp, by simp⟩,
      fun h => h, fun h => h⟩
  | cons l ls ih =>
    intro st i st' h
    rw [runLines_cons] at h
    rcases exceptBind_ok.mp h with ⟨st1, h1, h2⟩
    obtain ⟨a1, a2, ⟨t1, ht1, ht1l⟩, a4, a5⟩ := processLine_spec tok st i l st1 h1
    obtain ⟨b1, b2, ⟨t2, ht2, ht2l⟩, b4, b5⟩ := ih st1 (i + 1) st' h2
    refine ⟨a1.trans b1, ?_, ⟨t1 ++ t2, by rw [ht2, ht1, List.append_assoc], ?_⟩,
      fun hs => b4 (a4 hs), fun hi => b5 (a5 hi)⟩
    · intro x hx
      rcases b2 x hx with hx' | hx'
      · exact a2 x hx'
      · exact Or.inr hx'
    · intro v hv
      rcases List.mem_append.mp hv with hv' | hv'
      · have := ht1l v hv'
        simp only [List.length_cons]
        omega
      · have := ht2l v hv'
        simp only [List.length_cons]
        omega

theorem spk1_not_spk2 (l : String) (h : pyStartsWith l "Speaker 1:" = true) :
    pyStartsWith l "Speaker 2:" = false := by
  unfold pyStartsWith at h ⊢
  have e1 : "Speaker 1:".data.length = 10 := rfl
  have e2 : "Speaker 2:".data.length = 10 := rfl
  rw [e1, beq_iff_eq] at h
  rw [e2]
  rw [h]
  decide

theorem isEmpty_false_of_mem {α : Type} {a : α} {l : List α} (h : a ∈ l) :
    l.isEmpty = false := by
  cases l with
  | nil => cases h
  | cons x xs => rfl

theorem agentCheck_phi (allowed used : List String) (st : EvalState) (i : Nat)
    (h : PHI_TERM ∈ used ∨ ("คุณ" ++ PHI_TERM) ∈ used) :
    (agentCheck allowed used st i).status = Status.FAIL ∧
    (⟨i + 1, VKind.forbidden, phiFilter used⟩ : Violation) ∈
      (agentCheck allowed used st i).violations := by
  have hne : used.isEmpty = false := by
    rcases h with h | h <;> exact isEmpty_false_of_mem h
  have hpm : (PHI_TERM ∈ phiFilter used) ∨ (("คุณ" ++ PHI_TERM) ∈ phiFilter used) := by
    rcases h with h | h
    · exact Or.inl (List.mem_filter.mpr ⟨h, by decide⟩)
    · exact Or.inr (List.mem_filter.mpr ⟨h, by decide⟩)
  have hpne : (phiFilter used).isEmpty = false := by
    rcases hpm with h' | h' <;> exact isEmpty_false_of_mem h'
  unfold agentCheck
  rw [if_neg (by simp [hne])]
  unfold disStep
  by_cases hd : (disFilter allowed used).isEmpty = true
  · rw [if_pos hd]
    unfold phiStep
    rw [if_neg (by simp [hpne])]
    exact ⟨rfl, by simp⟩
  · rw [if_neg hd]
    unfold phiStep
    rw [if_neg (by simp [hpne])]
    exact ⟨rfl, by simp⟩

theorem is_self_reference_err (tok : Tokenizer) (term utt : String) (e : String)
    (hterm : MONK_SELF_TERMS.contains term = false)
    (h : tok.tokenize utt = Except.error e) :
    is_self_reference tok term utt = Except.error e := by
  unfold is_self_reference
  have hcond : (MONK_SELF_TERMS.contains term && strContains utt term) = false := by
    rw [hterm]
    rfl
  rw [if_neg (by rw [hcond]; exact Bool.false_ne_true)]
  simp [exceptBind_def, h, Except.bind]

theorem addSelfRefs_err (tok : Tokenizer) (text : String) (acc : List String) (e : String)
    (h : tok.tokenize text = Except.error e) :
    addSelfRefs tok text acc ALL_TERMS = Except.error e := by
  have e9 : ALL_TERMS =
      "ลุง" :: ["ป้า", "น้า", "อา", "ท่าน", "พระคุณเจ้า", "หลวงพี่", "หลวงพ่อ", "อาตมา"] := rfl
  rw [e9]
  show (is_self_reference tok "ลุง" text).bind _ = Except.error e
  rw [is_self_reference_err tok "ลุง" text e (by decide) h]
  rfl

theorem find_terms_err (tok : Tokenizer) (text : String) (e : String)
    (h : tok.tokenize text = Except.error e) :
    find_terms_in_text tok text = Except.error e := by
  unfold find_terms_in_text
  simp [exceptBind_def, h, Except.bind]

theorem monkAllowance (d : List String) (t u : String)
    (ht : t ∈ MONK_SELF_TERMS) (htd : t ∈ d) (hu : u ∈ MONK_TERMS) :
    u ∈ allowedTerms d ∧ ("คุณ" ++ u) ∈ allowedTerms d := by
  unfold allowedTerms
  constructor <;>
    refine List.mem_append_right _ (List.mem_flatMap.mpr ⟨t, htd, ?_⟩) <;>
    simp only [MONK_SELF_TERMS, List.mem_cons, List.not_mem_nil, or_false] at ht <;>
    simp only [MONK_TERMS, List.mem_cons, List.not_mem_nil, or_false] at hu <;>
    rcases ht with rfl | rfl | rfl <;> rcases hu with rfl | rfl <;> decide

theorem mem_termAllowance_phra (t : String) (ht : t ∈ ALL_TERMS) :
    "พระคุณเจ้า" ∈ termAllowance t ↔ (t = "พระคุณเจ้า" ∨ t ∈ MONK_SELF_TERMS) := by
  simp only [ALL_TERMS, FAMILY_TERMS, MONK_TERMS, MONK_SELF_TERMS, List.append_assoc,
    List.cons_append, List.nil_append, List.mem_cons, List.not_mem_nil, or_false] at ht
  rcases ht with rfl | rfl | rfl | rfl | rfl | rfl | rfl | rfl | rfl <;> decide

theorem allowed_phra_iff (d : List String) (hd : ∀ x ∈ d, x ∈ ALL_TERMS) :
    "พระคุณเจ้า" ∈ allowedTerms d ↔
      ("พระคุณเจ้า" ∈ d ∨ ∃ t ∈ d, t ∈ MONK_SELF_TERMS) := by
  unfold allowedTerms
  constructor
  · intro hm
    rcases List.mem_append.mp hm with hb | hf
    · exact absurd hb (by decide)
    · rcases List.mem_flatMap.mp hf with ⟨t, htd, hta⟩
      rcases (mem_termAllowance_phra t (hd t htd)).mp hta with heq | hms
      · exact Or.inl (heq ▸ htd)
      · exact Or.inr ⟨t, htd, hms⟩
  · intro hm
    rcases hm with hp | ⟨t, htd, hms⟩
    · exact List.mem_append_right _ (List.mem_flatMap.mpr ⟨_, hp, by decide⟩)
    · exact List.mem_append_right _ (List.mem_flatMap.mpr
        ⟨t, htd, (mem_termAllowance_phra t (hd t htd)).mpr (Or.inr hms)⟩)

theorem phi_not_allowed (d : List String) (hd : ∀ x ∈ d, x ∈ ALL_TERMS) :
    PHI_TERM ∉ allowedTerms d := by
  intro hmem
  unfold allowedTerms at hmem
  rcases List.mem_append.mp hmem with hb | hf
  · exact absurd hb (by decide)
  · rcases List.mem_flatMap.mp hf with ⟨t, htd, hta⟩
    have ht := hd t htd
    simp only [ALL_TERMS, FAMILY_TERMS, MONK_TERMS, MONK_SELF_TERMS, List.append_assoc,
      List.cons_append, List.nil_append, List.mem_cons, List.not_mem_nil, or_false] at ht
    rcases ht with rfl | rfl | rfl | rfl | rfl | rfl | rfl | rfl | rfl <;>
      exact absurd hta (by decide)

theorem evalUpTo_mono (tok : Tokenizer) (raw : List String) (k m : Nat)
    (s1 s2 : EvalState) (hkm : k ≤ m)
    (h1 : evalUpTo tok raw k = Except.ok s1)
    (h2 : evalUpTo tok raw m = Except.ok s2) :
    s1.self_ref_terms ⊆ s2.self_ref_terms := by
  unfold evalUpTo at h1 h2
  rw [show m = k + (m - k) by omega, List.take_add, runLines_append] at h2
  rcases exceptBind_ok.mp h2 with ⟨s1', h1', hrest⟩
  rw [h1, Except.ok.injEq] at h1'
  subst h1'
  exact (runLines_spec tok _ s1 _ s2 hrest).1

/-- C1 counterexample: พระคุณเจ้า is a MonkAddress term, yet an agent
line using it with no prior disclosure produces a disallowed-term
(unapproved) violation and a FAIL — the allowed set does not always
contain every MonkAddress term. -/
theorem C1_counterexample :
    "พระคุณเจ้า" ∈ MONK_TERMS ∧
    evaluate_conversation tokW ["Speaker 1: พระคุณเจ้า"] =
      Except.ok (0, ⟨Status.FAIL, [], [⟨1, VKind.unapproved, ["พระคุณเจ้า"]⟩]⟩) :=
  ⟨by decide, rfl⟩

/-- C1 (amended): on every reachable state, the allowed set always
contains ท่าน and คุณท่าน regardless of disclosures, but contains
พระคุณเจ้า exactly when it was itself disclosed or some
MonkSelfReference term was disclosed. -/
theorem C1_allowed_set (tok : Tokenizer) (raw : List String) (k : Nat) (s : EvalState)
    (h : evalUpTo tok raw k = Except.ok s) :
    "ท่าน" ∈ allowedTerms s.self_ref_terms ∧
    "คุณท่าน" ∈ allowedTerms s.self_ref_terms ∧
    ("พระคุณเจ้า" ∈ allowedTerms s.self_ref_terms ↔
      ("พระคุณเจ้า" ∈ s.self_ref_terms ∨
        ∃ t ∈ s.self_ref_terms, t ∈ MONK_SELF_TERMS)) := by
  unfold evalUpTo at h
  obtain ⟨_, hmem, _, _, _⟩ := runLines_spec tok _ initState 0 s h
  have hd : ∀ x ∈ s.self_ref_terms, x ∈ ALL_TERMS := by
    intro x hx
    rcases hmem x hx with h' | h'
    · exact absurd h' (by simp [initState])
    · exact h'
  refine ⟨?_, ?_, allowed_phra_iff _ hd⟩
  · unfold allowedTerms
    exact List.mem_append_left _ (by decide)
  · unfold allowedTerms
    exact List.mem_append_left _ (by decide)

/-- C1 witness: instantiating the amended statement on a transcript
whose caller disclosed อาตมา. -/
theorem C1_allowed_set_witness :
    "ท่าน" ∈ allowedTerms (⟨Status.PASS, ["อาตมา"], []⟩ : EvalState).self_ref_terms ∧
    "คุณท่าน" ∈ allowedTerms (⟨Status.PASS, ["อาตมา"], []⟩ : EvalState).self_ref_terms ∧
    ("พระคุณเจ้า" ∈ allowedTerms (⟨Status.PASS, ["อาตมา"], []⟩ : EvalState).self_ref_terms ↔
      ("พระคุณเจ้า" ∈ (⟨Status.PASS, ["อาตมา"], []⟩ : EvalState).self_ref_terms ∨
        ∃ t ∈ (⟨Status.PASS, ["อาตมา"], []⟩ : EvalState).self_ref_terms,
          t ∈ MONK_SELF_TERMS)) :=
  C1_allowed_set tokW ["Speaker 2: อาตมาเจริญพร"] 1 ⟨Status.PASS, ["อาตมา"], []⟩ rfl

/-- C3: the disclosed-terms set grows monotonically over the processing
of lines — the state after k parsed lines is a subset of the state after
any later cut m. -/
theorem C3_monotone (tok : Tokenizer) (raw : List String) (k m : Nat)
    (s1 s2 : EvalState) (hkm : k ≤ m)
    (h1 : evalUpTo tok raw k = Except.ok s1)
    (h2 : evalUpTo tok raw m = Except.ok s2) :
    s1.self_ref_terms ⊆ s2.self_ref_terms :=
  evalUpTo_mono tok raw k m s1 s2 hkm h1 h2

/-- C3 witness: monotonicity instantiated on a two-line transcript at
cuts 1 and 2. -/
theorem C3_monotone_witness :
    (⟨Status.PASS, ["อาตมา"], []⟩ : EvalState).self_ref_terms ⊆
      (⟨Status.PASS, ["อาตมา"], []⟩ : EvalState).self_ref_terms :=
  C3_monotone tokW ["Speaker 2: อาตมาเจริญพร", "Speaker 1: ท่านรอ"] 1 2
    ⟨Status.PASS, ["อาตมา"], []⟩ ⟨Status.PASS, ["อาตมา"], []⟩ (by decide) rfl rfl

/-- C4 counterexample: a segmentation failure on the first line makes
the whole evaluation return an error — no diagnostic is recorded, no
result is produced, and the remaining line is never evaluated, contrary
to the claimed record-and-continue behaviour. -/
theorem C4_counterexample :
    evaluate_conversation tokFail ["Speaker 2: ลุงครับ", "Speaker 1: ท่านรอ"] =
      Except.error "SegmentationError" := rfl

/-- C4 (amended): when tokenization of a speaker-labelled line's text
fails, the evaluator propagates the failure and aborts: processing the
remaining lines never happens and the error is returned as the whole
run's outcome. -/
theorem C4_segfault_aborts (tok : Tokenizer) (st : EvalState) (i : Nat)
    (line : String) (ls : List String) (e : String)
    (hlab : pyStartsWith line "Speaker 2:" = true ∨
      (pyStartsWith line "Speaker 2:" = false ∧ pyStartsWith line "Speaker 1:" = true))
    (htok : tok.tokenize (pyStrip (pyDrop line 10)) = Except.error e) :
    runLines tok st i (line :: ls) = Except.error e := by
  rw [runLines_cons]
  rcases hlab with h2 | ⟨h2, h1⟩
  · rw [processLine_caller_eq tok st i line h2, addSelfRefs_err tok _ _ e htok]
    rfl
  · rw [processLine_agent_eq tok st i line h2 h1, find_terms_err tok _ e htok]
    rfl

/-- C4 witness: the amended abort behaviour instantiated on a concrete
caller line with the failing segmenter. -/
theorem C4_segfault_aborts_witness :
    runLines tokFail initState 0 ["Speaker 2: ลุงครับ"] =
      Except.error "SegmentationError" :=
  C4_segfault_aborts tokFail initState 0 "Speaker 2: ลุงครับ" [] "SegmentationError"
    (Or.inl (by decide)) rfl

/-- C5: for a term outside MonkSelfReference, is_self_reference succeeds
exactly when the term is an exact token and the literal negation pattern
does not occur in the raw text; for a MonkSelfReference term, any
substring occurrence yields true with no negation check. -/
theorem C5_self_reference (tok : Tokenizer) (term utt : String) :
    (term ∉ MONK_SELF_TERMS → ∀ toks, tok.tokenize utt = Except.ok toks →
      is_self_reference tok term utt =
        Except.ok (toks.contains term && !(strContains utt ("ไม่ใช่" ++ term)))) ∧
    (term ∈ MONK_SELF_TERMS → strContains utt term = true →
      is_self_reference tok term utt = Except.ok true) := by
  constructor
  · intro hn toks htoks
    unfold is_self_reference
    have hc : MONK_SELF_TERMS.contains term = false := by
      cases hcc : MONK_SELF_TERMS.contains term
      · rfl
      · exact absurd (List.mem_of_elem_eq_true hcc) hn
    rw [if_neg (by rw [hc, Bool.false_and]; exact Bool.false_ne_true)]
    show (tok.tokenize utt).bind _ = _
    rw [htoks]
    show (if !(toks.contains term) then pure false
      else if strContains utt ("ไม่ใช่" ++ term) then pure false
      else pure true : Except String Bool) = _
    cases hct : toks.contains term <;>
      cases hsc : strContains utt ("ไม่ใช่" ++ term) <;>
      simp [hct, hsc, exceptPure_def]
  · intro hm hsub
    unfold is_self_reference
    rw [if_pos (by
      rw [show MONK_SELF_TERMS.contains term = true from List.elem_eq_true_of_mem hm, hsub]
      rfl)]
    rfl

/-- C5 witness: both branches instantiated — ลุง as an exact token of a
successfully tokenized utterance, and อาตมา as a bare substring. -/
theorem C5_self_reference_witness :
    is_self_reference tokW "ลุง" "ลุงอยากถาม" =
      Except.ok ((["ลุง", "อยาก", "ถาม"].contains "ลุง") &&
        !(strContains "ลุงอยากถาม" ("ไม่ใช่" ++ "ลุง"))) ∧
    is_self_reference tokW "อาตมา" "อาตมาเจริญพร" = Except.ok true :=
  ⟨(C5_self_reference tokW "ลุง" "ลุงอยากถาม").1 (by decide) ["ลุง", "อยาก", "ถาม"] rfl,
   (C5_self_reference tokW "อาตมา" "อาตมาเจริญพร").2 (by decide) (by decide)⟩

/-- C9: every reachable disclosed-terms set is contained in ALL_TERMS;
in particular the forbidden term พี่ is never disclosed and never a
member of the allowed set. -/
theorem C9_no_phi_disclosure (tok : Tokenizer) (raw : List String) (k : Nat)
    (s : EvalState) (h : evalUpTo tok raw k = Except.ok s) :
    (∀ x ∈ s.self_ref_terms, x ∈ ALL_TERMS) ∧
    PHI_TERM ∉ s.self_ref_terms ∧
    PHI_TERM ∉ allowedTerms s.self_ref_terms := by
  unfold evalUpTo at h
  obtain ⟨_, hmem, _, _, _⟩ := runLines_spec tok _ initState 0 s h
  have hd : ∀ x ∈ s.self_ref_terms, x ∈ ALL_TERMS := by
    intro x hx
    rcases hmem x hx with h' | h'
    · exact absurd h' (by simp [initState])
    · exact h'
  exact ⟨hd, fun hphi => absurd (hd _ hphi) (by decide), phi_not_allowed _ hd⟩

/-- C9 witness: instantiated on the state reached after a caller
disclosure of อาตมา. -/
theorem C9_no_phi_disclosure_witness :
    "อาตมา" ∈ ALL_TERMS ∧
    PHI_TERM ∉ (⟨Status.PASS, ["อาตมา"], []⟩ : EvalState).self_ref_terms ∧
    PHI_TERM ∉ allowedTerms (⟨Status.PASS, ["อาตมา"], []⟩ : EvalState).self_ref_terms := by
  have h := C9_no_phi_disclosure tokW ["Speaker 2: อาตมาเจริญพร"] 1
    ⟨Status.PASS, ["อาตมา"], []⟩ rfl
  exact ⟨h.1 "อาตมา" (by decide), h.2.1, h.2.2⟩

/-- C10: processing an agent line never changes the disclosed-terms
set, and processing a caller line never changes the violations list or
the status. -/
theorem C10_frame (tok : Tokenizer) (st : EvalState) (i : Nat) (line : String)
    (st' : EvalState) (h : processLine tok st i line = Except.ok st') :
    (pyStartsWith line "Speaker 1:" = true → st'.self_ref_terms = st.self_ref_terms) ∧
    (pyStartsWith line "Speaker 2:" = true →
      st'.violations = st.violations ∧ st'.status = st.status) := by
  constructor
  · intro h1
    have h2 := spk1_not_spk2 line h1
    rw [processLine_agent_eq tok st i line h2 h1] at h
    rcases exceptBind_ok.mp h with ⟨used, _, hok⟩
    simp only [Except.ok.injEq] at hok
    subst hok
    exact (agentCheck_spec (allowedTerms st.self_ref_terms) used st i).1
  · intro h2
    rw [processLine_caller_eq tok st i line h2] at h
    rcases exceptBind_ok.mp h with ⟨d, _, hok⟩
    simp only [Except.ok.injEq] at hok
    subst hok
    exact ⟨rfl, rfl⟩

/-- C10 witness: both frame conditions instantiated — an agent line
using ท่าน and a caller line disclosing อาตมา. -/
theorem C10_frame_witness :
    (initState.self_ref_terms = initState.self_ref_terms) ∧
    ((⟨Status.PASS, ["อาตมา"], []⟩ : EvalState).violations = initState.violations ∧
      (⟨Status.PASS, ["อาตมา"], []⟩ : EvalState).status = initState.status) :=
  ⟨(C10_frame tokW initState 0 "Speaker 1: ท่านรอ" initState rfl).1 (by decide),
   (C10_frame tokW initState 0 "Speaker 2: อาตมาเจริญพร"
      ⟨Status.PASS, ["อาตมา"], []⟩ rfl).2 (by decide)⟩

/-- C2: an agent line on which the occurrence finder detects the
forbidden term (bare or as คุณพี่) always yields a forbidden-term
violation carrying that line's 1-based number, and the final score is 0
with status FAIL, independently of any disclosure state. -/
theorem C2_forbidden_absolute (tok : Tokenizer) (raw : List String)
    (pre post : List String) (line : String) (used : List String)
    (res : Nat × EvalState)
    (hsplit : parseLines raw = pre ++ line :: post)
    (h1 : pyStartsWith line "Speaker 1:" = true)
    (hused : find_terms_in_text tok (pyStrip (pyDrop line 10)) = Except.ok used)
    (hphi : PHI_TERM ∈ used ∨ ("คุณ" ++ PHI_TERM) ∈ used)
    (hres : evaluate_conversation tok raw = Except.ok res) :
    res.1 = 0 ∧ res.2.status = Status.FAIL ∧
    ∃ v ∈ res.2.violations, v.line = pre.length + 1 ∧ v.kind = VKind.forbidden := by
  unfold evaluate_conversation at hres
  rcases exceptBind_ok.mp hres with ⟨fin, hrun, hpure⟩
  rw [exceptPure_def, Except.ok.injEq] at hpure
  rw [hsplit, runLines_append] at hrun
  rcases exceptBind_ok.mp hrun with ⟨st1, hpre, hrest⟩
  rw [runLines_cons] at hrest
  rcases exceptBind_ok.mp hrest with ⟨st2, hline, hpost⟩
  rw [processLine_agent_eq tok st1 (0 + pre.length) line (spk1_not_spk2 line h1) h1] at hline
  rcases exceptBind_ok.mp hline with ⟨used', hused', hok⟩
  rw [hused, Except.ok.injEq] at hused'
  subst hused'
  simp only [Except.ok.injEq] at hok
  subst hok
  obtain ⟨hfail, hvmem⟩ :=
    agentCheck_phi (allowedTerms st1.self_ref_terms) used st1 (0 + pre.length) hphi
  obtain ⟨_, _, ⟨tail, htail, _⟩, hstat, _⟩ := runLines_spec tok post _ _ fin hpost
  have hfinfail : fin.status = Status.FAIL := hstat hfail
  subst hpure
  refine ⟨by simp [hfinfail], hfinfail,
    ⟨⟨0 + pre.length + 1, VKind.forbidden, phiFilter used⟩, ?_, by simp, rfl⟩⟩
  have : (⟨0 + pre.length + 1, VKind.forbidden, phiFilter used⟩ : Violation) ∈
      fin.violations := by
    rw [htail]
    exact List.mem_append_left _ hvmem
  exact this

/-- C2 witness: the forbidden term on the only line of a one-line
transcript. -/
theorem C2_forbidden_absolute_witness :
    resW.1 = 0 ∧ resW.2.status = Status.FAIL ∧
    ∃ v ∈ resW.2.violations, v.line = List.length ([] : List String) + 1 ∧
      v.kind = VKind.forbidden :=
  C2_forbidden_absolute tokW ["Speaker 1: พี่ครับ"] [] [] "Speaker 1: พี่ครับ" ["พี่"]
    resW rfl (by decide) rfl (Or.inl (by decide)) rfl

/-- C6: once a MonkSelfReference term has been disclosed by the cut k,
every MonkAddress term and its honorific-led form is in the allowed set
at every later cut m. -/
theorem C6_unlock (tok : Tokenizer) (raw : List String) (k m : Nat)
    (s1 s2 : EvalState) (t : String) (hkm : k ≤ m)
    (h1 : evalUpTo tok raw k = Except.ok s1)
    (h2 : evalUpTo tok raw m = Except.ok s2)
    (ht : t ∈ MONK_SELF_TERMS) (htd : t ∈ s1.self_ref_terms) :
    ∀ u ∈ MONK_TERMS, u ∈ allowedTerms s2.self_ref_terms ∧
      ("คุณ" ++ u) ∈ allowedTerms s2.self_ref_terms := by
  intro u hu
  exact monkAllowance s2.self_ref_terms t u ht
    (evalUpTo_mono tok raw k m s1 s2 hkm h1 h2 htd) hu

/-- C6 witness: the unlock relation instantiated — after the caller
disclosed อาตมา, พระคุณเจ้า and คุณพระคุณเจ้า are allowed. -/
theorem C6_unlock_witness :
    "พระคุณเจ้า" ∈ allowedTerms (⟨Status.PASS, ["อาตมา"], []⟩ : EvalState).self_ref_terms ∧
    ("คุณ" ++ "พระคุณเจ้า") ∈
      allowedTerms (⟨Status.PASS, ["อาตมา"], []⟩ : EvalState).self_ref_terms :=
  C6_unlock tokW ["Speaker 2: อาตมาเจริญพร"] 1 1
    ⟨Status.PASS, ["อาตมา"], []⟩ ⟨Status.PASS, ["อาตมา"], []⟩ "อาตมา"
    (by decide) rfl rfl (by decide) (by decide) "พระคุณเจ้า" (by decide)

/-- C7: the status is FAIL iff the violations list is non-empty, the
score is 1 iff PASS and 0 iff FAIL, and the final violations extend the
violations accumulated at every earlier cut — evaluation never stops at
the first violation. -/
theorem C7_verdict (tok : Tokenizer) (raw : List String) (res : Nat × EvalState)
    (hres : evaluate_conversation tok raw = Except.ok res) :
    (res.2.status = Status.FAIL ↔ res.2.violations ≠ []) ∧
    (res.1 = 1 ↔ res.2.status = Status.PASS) ∧
    (res.1 = 0 ↔ res.2.status = Status.FAIL) ∧
    (∀ k sk, evalUpTo tok raw k = Except.ok sk →
      ∃ rest, res.2.violations = sk.violations ++ rest) := by
  unfold evaluate_conversation at hres
  rcases exceptBind_ok.mp hres with ⟨fin, hrun, hpure⟩
  rw [exceptPure_def, Except.ok.injEq] at hpure
  subst hpure
  obtain ⟨_, _, _, _, hinv⟩ := runLines_spec tok _ initState 0 fin hrun
  have hinv' := hinv (by simp [initState])
  refine ⟨hinv', ?_, ?_, ?_⟩
  · cases hst : fin.status <;> simp [hst]
  · cases hst : fin.status <;> simp [hst]
  · intro k sk hk
    unfold evalUpTo at hk
    rw [← List.take_append_drop k (parseLines raw), runLines_append] at hrun
    rcases exceptBind_ok.mp hrun with ⟨mid, hmid, hrest⟩
    rw [hk, Except.ok.injEq] at hmid
    subst hmid
    obtain ⟨_, _, ⟨tail, htail, _⟩, _, _⟩ := runLines_spec tok _ sk _ fin hrest
    exact ⟨tail, htail⟩

/-- C7 witness: the verdict relations instantiated on the one-line
forbidden-term transcript, with the cut at 0. -/
theorem C7_verdict_witness :
    (resW.2.status = Status.FAIL ↔ resW.2.violations ≠ []) ∧
    (resW.1 = 1 ↔ resW.2.status = Status.PASS) ∧
    (resW.1 = 0 ↔ resW.2.status = Status.FAIL) ∧
    (∃ rest, resW.2.violations = initState.violations ++ rest) := by
  have h := C7_verdict tokW ["Speaker 1: พี่ครับ"] resW rfl
  exact ⟨h.1, h.2.1, h.2.2.1, h.2.2.2 0 initState rfl⟩

/-- C8: a blank line is dropped before numbering (inserting one changes
nothing), a non-blank line with neither speaker label is a no-op on the
state, and every violation's line number is a 1-based index into the
non-blank line sequence. -/
theorem C8_line_numbering (tok : Tokenizer) (xs ys : List String) (b line : String)
    (st : EvalState) (i : Nat) (res : Nat × EvalState)
    (hb : pyStrip b = "")
    (h1 : pyStartsWith line "Speaker 1:" = false)
    (h2 : pyStartsWith line "Speaker 2:" = false)
    (hres : evaluate_conversation tok (xs ++ ys) = Except.ok res) :
    evaluate_conversation tok (xs ++ b :: ys) = evaluate_conversation tok (xs ++ ys) ∧
    processLine tok st i line = Except.ok st ∧
    (∀ v ∈ res.2.violations, 1 ≤ v.line ∧ v.line ≤ (parseLines (xs ++ ys)).length) := by
  have hpl : parseLines (xs ++ b :: ys) = parseLines (xs ++ ys) := by
    unfold parseLines
    rw [List.filterMap_append, List.filterMap_append, List.filterMap_cons_none]
    rw [hb]
    rfl
  refine ⟨?_, processLine_other_eq tok st i line h2 h1, ?_⟩
  · unfold evaluate_conversation
    rw [hpl]
  · unfold evaluate_conversation at hres
    rcases exceptBind_ok.mp hres with ⟨fin, hrun, hpure⟩
    rw [exceptPure_def, Except.ok.injEq] at hpure
    subst hpure
    obtain ⟨_, _, ⟨tail, htail, hbound⟩, _, _⟩ := runLines_spec tok _ initState 0 fin hrun
    intro v hv
    have hv2 : v ∈ fin.violations := hv
    rw [htail] at hv2
    rcases List.mem_append.mp hv2 with hv' | hv'
    · exact absurd hv' (by simp [initState])
    · have := hbound v hv'
      omega

/-- C8 witness: blank-line insertion, an unlabeled line, and the line
bound instantiated on the one-line forbidden-term transcript. -/
theorem C8_line_numbering_witness :
    evaluate_conversation tokW (["Speaker 1: พี่ครับ"] ++ "   " :: []) =
      evaluate_conversation tokW (["Speaker 1: พี่ครับ"] ++ []) ∧
    processLine tokW initState 0 "สวัสดี" = Except.ok initState ∧
    (1 ≤ (⟨1, VKind.forbidden, ["พี่"]⟩ : Violation).line ∧
      (⟨1, VKind.forbidden, ["พี่"]⟩ : Violation).line ≤
        (parseLines (["Speaker 1: พี่ครับ"] ++ [])).length) := by
  have h := C8_line_numbering tokW ["Speaker 1: พี่ครับ"] [] "   " "สวัสดี" initState 0 resW
    rfl (by decide) (by decide) rfl
  exact ⟨h.1, h.2.1, h.2.2 ⟨1, VKind.forbidden, ["พี่"]⟩ (by decide)⟩

end NHSO
